import Mathlib

/-!
Verification development for the xfgwinter STARK repository.

The Rust sources are shallowly embedded: u64 machine arithmetic is
modelled as Nat arithmetic reduced mod 2^64 where the source wraps,
fallible operations return Option or Except, and each definition mirrors
one function of the source.

A note on the field modulus: src/src/types/field.rs declares
  pub const MODULUS: u64 = 0x30644e72e131a029b85045b68181585d97816a916871ca8d3c208c16d87cfd47;
The literal is a 254-bit number assigned to a u64 constant; the machine
constant holds only the low 64 bits of the written value.  The embedding
therefore takes MODULUS to be the literal reduced mod 2^64, which is
0x3c208c16d87cfd47 = 4332616871279656263.  That number is composite
(3 * 17 * 1061 * 80069059364633), which drives several findings below.
-/

namespace XfgStark

/-- Two to the 64, the u64 wrap-around modulus. -/
def U64MOD : Nat := 2 ^ 64

/-- Wrapping u64 addition. -/
def wadd (a b : Nat) : Nat := (a + b) % U64MOD

/-- Wrapping u64 subtraction. -/
def wsub (a b : Nat) : Nat := (a + (U64MOD - b % U64MOD)) % U64MOD

/-- Wrapping u64 multiplication. -/
def wmul (a b : Nat) : Nat := (a * b) % U64MOD

/-- PrimeField64::MODULUS, the low 64 bits of the written literal (see header note). -/
def MODULUS : Nat := 0x3c208c16d87cfd47

/-- PrimeField64::CHARACTERISTIC, declared equal to MODULUS in the source. -/
def CHARACTERISTIC : Nat := MODULUS

/-- PrimeField64: a wrapper around a u64 value kept reduced mod MODULUS by new. -/
structure PrimeField64 where
  value : Nat
  deriving Repr, DecidableEq

/-- PrimeField64::new reduces the input mod MODULUS. -/
def pfNew (v : Nat) : PrimeField64 := ⟨v % MODULUS⟩

/-- FieldElement::zero for PrimeField64. -/
def pfZero : PrimeField64 := pfNew 0

/-- FieldElement::one for PrimeField64. -/
def pfOne : PrimeField64 := pfNew 1

/-- FieldElement::is_zero for PrimeField64. -/
def pfIsZero (a : PrimeField64) : Bool := a.value == 0

/-- PrimeField64::add_constant_time: wrapping add, carry detected by sum < self,
then carry * (MODULUS - 1) added before the final reduction in new. -/
def pfAdd (a b : PrimeField64) : PrimeField64 :=
  let sum := wadd a.value b.value
  let carry := if sum < a.value then 1 else 0
  let result := wadd sum (carry * (MODULUS - 1))
  pfNew result

/-- PrimeField64::sub_constant_time: wrapping sub, borrow detected by diff > self,
then borrow * MODULUS subtracted before the final reduction in new. -/
def pfSub (a b : PrimeField64) : PrimeField64 :=
  let diff := wsub a.value b.value
  let borrow := if diff > a.value then 1 else 0
  let result := wsub diff (borrow * MODULUS)
  pfNew result

/-- PrimeField64::mul_constant_time: widening product reduced mod MODULUS. -/
def pfMul (a b : PrimeField64) : PrimeField64 :=
  pfNew ((a.value * b.value) % MODULUS)

/-- Neg for PrimeField64: zero maps to zero, otherwise MODULUS - value. -/
def pfNeg (a : PrimeField64) : PrimeField64 :=
  if pfIsZero a then pfZero else pfNew (MODULUS - a.value)

/-- Loop of PrimeField64::inverse_constant_time.  The Rust while loop runs on
u64 state (r, s, t, r_prime, s_prime, t_prime) until r = 0; r is replaced by
r_prime - quotient * r = r_prime mod r, which is strictly smaller than r, so
the loop performs at most r0 iterations when started with r = r0.  The embedding
uses structural fuel; the callers below always pass fuel = r0 + 1, which the
strict decrease of r makes sufficient, so the fuel-exhausted branch (which
returns the same pair as loop exit) is never taken.  The u64 updates of s and t
wrap mod 2^64 exactly as wrapping machine arithmetic does. -/
def egcdLoop : Nat → Nat → Nat → Nat → Nat → Nat → Nat → Nat × Nat
  | 0, _, _, _, rp, sp, _ => (rp, sp)
  | fuel + 1, r, s, t, rp, sp, tp =>
    if r = 0 then (rp, sp)
    else
      let q := rp / r
      egcdLoop fuel (wsub rp (wmul q r)) (wsub sp (wmul q s)) (wsub tp (wmul q t)) r s t

/-- PrimeField64::inverse_constant_time: none when the value is 0, otherwise the
extended Euclidean loop; none when the final r_prime is not 1, otherwise
new(s_prime). -/
def pfInverse (a : PrimeField64) : Option PrimeField64 :=
  if a.value = 0 then none
  else
    let (rp, sp) := egcdLoop (a.value + 1) a.value 1 0 MODULUS 0 1
    if rp ≠ 1 then none else some (pfNew sp)

/-- Encoding of the first 8 bytes of a 32-byte array as a little-endian u64. -/
def encodeLE8 (b : Fin 32 → Fin 256) : Nat :=
  (b 0).val + 256 * ((b 1).val + 256 * ((b 2).val + 256 * ((b 3).val +
    256 * ((b 4).val + 256 * ((b 5).val + 256 * ((b 6).val + 256 * (b 7).val))))))

/-- PrimeField64::from_bytes_constant_time: reads the first 8 bytes as a
little-endian u64 and always returns Some(new(value)). -/
def pfFromBytes (b : Fin 32 → Fin 256) : Option PrimeField64 :=
  some (pfNew (encodeLE8 b))

/-- The capability set of the FieldElement trait that the polynomial engine
uses: ring operations, inverse, zero test, construction from a u64 and the
CHARACTERISTIC associated constant.  FieldPolynomial is generic over any
implementor, so the polynomial definitions below take a FieldOps record. -/
structure FieldOps (F : Type) where
  zero : F
  one : F
  isZero : F → Bool
  add : F → F → F
  sub : F → F → F
  mul : F → F → F
  neg : F → F
  inverse : F → Option F
  ofU64 : Nat → F
  characteristic : Nat

/-- The FieldElement implementation of PrimeField64 from the source. -/
def pfOps : FieldOps PrimeField64 where
  zero := pfZero
  one := pfOne
  isZero := pfIsZero
  add := pfAdd
  sub := pfSub
  mul := pfMul
  neg := pfNeg
  inverse := pfInverse
  ofU64 := pfNew
  characteristic := CHARACTERISTIC

variable {F : Type}

/-- Index of the highest coefficient that is not zero, none when all are zero.
Helper for FieldPolynomial::degree, which scans coefficients from the top. -/
def lastNonzeroIdx (ops : FieldOps F) : List F → Option Nat
  | [] => none
  | c :: rest =>
    match lastNonzeroIdx ops rest with
    | some i => some (i + 1)
    | none => if ops.isZero c then none else some 0

/-- FieldPolynomial::degree: highest index holding a non-zero coefficient, and
0 for the empty or all-zero coefficient vector. -/
def polyDegree (ops : FieldOps F) (p : List F) : Nat :=
  (lastNonzeroIdx ops p).getD 0

/-- FieldPolynomial::coefficient: entry at the index, and zero beyond the
stored length. -/
def polyCoeff (ops : FieldOps F) (p : List F) (i : Nat) : F :=
  p.getD i ops.zero

/-- FieldPolynomial::set_coefficient: pad with zeros up to the index, then
overwrite the entry there. -/
def polySetCoeff (ops : FieldOps F) (p : List F) (i : Nat) (v : F) : List F :=
  (p ++ List.replicate (i + 1 - p.length) ops.zero).set i v

/-- FieldPolynomial::zero: the single zero coefficient. -/
def polyZero (ops : FieldOps F) : List F := [ops.zero]

/-- FieldPolynomial::evaluate: the source accumulates result += coeff * power
and power *= point over the stored coefficients in order. -/
def polyEval (ops : FieldOps F) (p : List F) (point : F) : F :=
  (p.foldl (fun (st : F × F) c =>
    (ops.add st.1 (ops.mul c st.2), ops.mul st.2 point)) (ops.zero, ops.one)).1

/-- FieldPolynomial::add: coefficient-wise sum up to the larger degree. -/
def polyAdd (ops : FieldOps F) (p q : List F) : List F :=
  let maxDegree := max (polyDegree ops p) (polyDegree ops q)
  (List.range (maxDegree + 1)).map (fun i =>
    ops.add (polyCoeff ops p i) (polyCoeff ops q i))

/-- Neg for FieldPolynomial: negate each stored coefficient. -/
def polyNeg (ops : FieldOps F) (p : List F) : List F := p.map ops.neg

/-- FieldPolynomial::multiply: convolution into a zero vector of length
degree(p) + degree(q) + 1, accumulating in the source iteration order. -/
def polyMul (ops : FieldOps F) (p q : List F) : List F :=
  let dp := polyDegree ops p
  let dq := polyDegree ops q
  (List.range (dp + 1)).foldl (fun acc i =>
    (List.range (dq + 1)).foldl (fun acc2 j =>
      acc2.set (i + j)
        (ops.add (polyCoeff ops acc2 (i + j))
          (ops.mul (polyCoeff ops p i) (polyCoeff ops q j)))) acc)
    (List.replicate (dp + dq + 1) ops.zero)

/-- FieldPolynomial::is_zero: every stored coefficient is zero. -/
def polyIsZero (ops : FieldOps F) (p : List F) : Bool :=
  p.all ops.isZero

/-- The while loop of FieldPolynomial::divide, with structural fuel.  The
source loops while remainder.degree() >= divisor_degree; both degrees are
usize, so for divisor_degree = 0 the guard never fails.  The outer none marks
fuel exhaustion (the source would still be looping); some r is the value the
source returns, where r itself is the Option returned by divide (the inverse
call inside the loop propagates None out of divide). -/
def divideLoop (ops : FieldOps F) (divisor : List F) (divisorDegree : Nat)
    (divisorLeading : F) :
    Nat → List F → List F → Option (Option (List F × List F))
  | 0, _, _ => none
  | fuel + 1, quot, rem =>
    if polyDegree ops rem ≥ divisorDegree then
      let remDegree := polyDegree ops rem
      let remLeading := polyCoeff ops rem remDegree
      match ops.inverse divisorLeading with
      | none => some none
      | some inv =>
        let c := ops.mul remLeading inv
        let quot2 := polySetCoeff ops quot (remDegree - divisorDegree) c
        let temp := polySetCoeff ops (polyZero ops) (remDegree - divisorDegree) c
        let product := polyMul ops temp divisor
        divideLoop ops divisor divisorDegree divisorLeading fuel quot2
          (polyAdd ops rem (polyNeg ops product))
    else some (some (quot, rem))

/-- FieldPolynomial::divide: None for a zero divisor, otherwise the long
division loop starting from quotient = zero polynomial and remainder = p.
The outer none again marks fuel exhaustion. -/
def polyDivide (ops : FieldOps F) (fuel : Nat) (p q : List F) :
    Option (Option (List F × List F)) :=
  if polyIsZero ops q then some none
  else
    divideLoop ops q (polyDegree ops q) (polyCoeff ops q (polyDegree ops q))
      fuel (polyZero ops) p

/-- FieldPolynomial::derivative: zero for degree 0; otherwise a vector of
length degree whose entry at i - 1 is coefficient(i) * new(i), except that
indices i exactly divisible by the field characteristic are skipped and stay
zero.  The source writes each entry of a zero vector at most once inside a
loop over i in 1..=degree; the map below produces the same vector entry by
entry. -/
def polyDerivative (ops : FieldOps F) (p : List F) : List F :=
  if polyDegree ops p = 0 then polyZero ops
  else
    (List.range (polyDegree ops p)).map (fun k =>
      if (k + 1) % ops.characteristic ≠ 0 then
        ops.mul (polyCoeff ops p (k + 1)) (ops.ofU64 (k + 1))
      else ops.zero)

/-- Inner loop of FieldPolynomial::interpolate for the point (xi, yi) at index
i: multiplies the term polynomial by (x - x_j) and the denominator by
(x_i - x_j) for every other index j. -/
def lagrangeTermAndDenom (ops : FieldOps F) (points : List (F × F)) (i : Nat)
    (yi : F) (xi : F) : List F × F :=
  (points.enum.foldl (fun (st : List F × F) pj =>
    if i = pj.1 then st
    else
      (polyMul ops st.1 [ops.neg pj.2.1, ops.one],
        ops.mul st.2 (ops.sub xi pj.2.1)))
    ([yi], ops.one))

/-- FieldPolynomial::interpolate: None for an empty point list; otherwise the
Lagrange sum, propagating None whenever a denominator has no inverse. -/
def polyInterpolate (ops : FieldOps F) (points : List (F × F)) :
    Option (List F) :=
  if points.isEmpty then none
  else
    points.enum.foldl (fun acc pi =>
      acc.bind (fun result =>
        let (term, denom) :=
          lagrangeTermAndDenom ops points pi.1 pi.2.2 pi.2.1
        match ops.inverse denom with
        | none => none
        | some inv =>
          some (polyAdd ops result (polyMul ops term [inv]))))
      (some (polyZero ops))

/-- Outcome of a Rust computation that can panic: either a value or a panic
with the panic message. -/
inductive PanicOr (α : Type) where
  | panicked (msg : String)
  | ok (a : α)
  deriving Repr, DecidableEq

/-- BinaryField: a u64 value together with the field degree. -/
structure BinaryField where
  value : Nat
  degree : Nat
  deriving Repr, DecidableEq

/-- BinaryField::new masks the value to degree bits ((1 << degree) - 1; all
degrees reached below are < 64, so the mask is 2^degree - 1 and the bitwise
AND is reduction mod 2^degree). -/
def bfNew (v d : Nat) : BinaryField := ⟨v % 2 ^ d, d⟩

/-- BinaryField::irreducible_polynomial: fixed polynomials for degrees 8, 16
and 32; every other degree panics with the shown message. -/
def bfIrreducible (d : Nat) : PanicOr Nat :=
  match d with
  | 8 => .ok 0x11b
  | 16 => .ok 0x1002b
  | 32 => .ok 0x1000000af
  | _ => .panicked ("Unsupported field degree: " ++ toString d)

/-- Loop body of BinaryField::mul_constant_time, iterated degree times over
the state (result, a, b).  Each pass conditionally xors a into the result,
then recomputes a as (a << 1) ^ (carry * irreducible) with carry the top bit
of a, and shifts b right; the irreducible-polynomial lookup inside the body
panics on an unsupported degree. -/
def bfMulIter (d : Nat) : Nat → Nat → Nat → Nat → PanicOr Nat
  | 0, result, _, _ => .ok result
  | fuel + 1, result, a, b =>
    let result2 := if b % 2 = 1 then result ^^^ a else result
    match bfIrreducible d with
    | .panicked m => .panicked m
    | .ok irr =>
      let carry := a >>> (d - 1)
      let a2 := (wmul a 2) ^^^ (wmul carry irr)
      bfMulIter d fuel result2 a2 (b >>> 1)

/-- BinaryField::mul_constant_time: asserts equal degrees, then runs the
carry-less multiplication loop degree times and masks the result via new. -/
def bfMulConstantTime (x y : BinaryField) : PanicOr BinaryField :=
  if x.degree ≠ y.degree then .panicked "Field degrees must match"
  else
    match bfMulIter x.degree x.degree 0 x.value y.value with
    | .panicked m => .panicked m
    | .ok result => .ok (bfNew result x.degree)

/-- TypeError from the types module (the module file itself is absent from
src/; the shape used by types/stark.rs is the InvalidConversion variant
carrying a message). -/
inductive TypeError where
  | invalidConversion (msg : String)
  deriving Repr, DecidableEq

/-- Modelled from the spec: the Display text of TypeError comes from the
absent types module; structural and configuration errors carry a descriptive
message (spec section 7), modelled as the message itself. -/
def typeErrorToString : TypeError → String
  | .invalidConversion m => m

/-- ProofError from src/src/proof/mod.rs. -/
inductive ProofError where
  | invalidProof (msg : String)
  | traceError (msg : String)
  | constraintError (msg : String)
  | friError (msg : String)
  | commitmentError (msg : String)
  | verificationError (msg : String)
  | securityError (msg : String)
  deriving Repr, DecidableEq

/-- Constraint types from types/stark.rs. -/
inductive ConstraintType where
  | transition
  | boundary
  | algebraic
  deriving Repr, DecidableEq

/-- ExecutionTrace from types/stark.rs: columns, length, number of registers. -/
structure ExecutionTrace (F : Type) where
  columns : List (List F)
  length : Nat
  numRegisters : Nat
  deriving Repr, DecidableEq

/-- Constraint from types/stark.rs: a constraint polynomial with its degree
and type. -/
structure AirConstraint (F : Type) where
  polynomial : List F
  degree : Nat
  constraintType : ConstraintType
  deriving Repr, DecidableEq

/-- TransitionFunction data from types/stark.rs: coefficient matrix and
degree. -/
structure TransitionFunctionData (F : Type) where
  coefficients : List (List F)
  degree : Nat
  deriving Repr, DecidableEq

/-- BoundaryConstraint from types/stark.rs. -/
structure BoundaryConstraint (F : Type) where
  register : Nat
  step : Nat
  value : F
  deriving Repr, DecidableEq

/-- BoundaryConditions from types/stark.rs. -/
structure BoundaryConditions (F : Type) where
  constraints : List (BoundaryConstraint F)
  deriving Repr, DecidableEq

/-- Air from types/stark.rs: constraints, transition function, boundary
conditions and security parameter. -/
structure Air (F : Type) where
  constraints : List (AirConstraint F)
  transition : TransitionFunctionData F
  boundary : BoundaryConditions F
  securityParameter : Nat
  deriving Repr, DecidableEq

/-- MerkleCommitment from types/stark.rs. -/
structure MerkleCommitment (F : Type) where
  root : List Nat
  depth : Nat
  leaves : List F
  deriving Repr, DecidableEq

/-- FriLayer from types/stark.rs. -/
structure FriLayer (F : Type) where
  polynomial : List F
  commitment : List Nat
  degree : Nat
  deriving Repr, DecidableEq

/-- FriQuery from types/stark.rs. -/
structure FriQuery (F : Type) where
  point : F
  responses : List F
  deriving Repr, DecidableEq

/-- FriProof from types/stark.rs. -/
structure FriProof (F : Type) where
  layers : List (FriLayer F)
  finalPolynomial : List F
  queries : List (FriQuery F)
  deriving Repr, DecidableEq

/-- ProofMetadata from types/stark.rs. -/
structure ProofMetadata where
  version : Nat
  securityParameter : Nat
  fieldModulus : String
  proofSize : Nat
  timestamp : Nat
  deriving Repr, DecidableEq

/-- StarkProof from types/stark.rs. -/
structure StarkProof (F : Type) where
  trace : ExecutionTrace F
  air : Air F
  commitments : List (MerkleCommitment F)
  friProof : FriProof F
  metadata : ProofMetadata
  deriving Repr, DecidableEq

/-- ExecutionTrace::validate from types/stark.rs. -/
def traceValidate (t : ExecutionTrace F) : Except TypeError Unit :=
  if t.length = 0 then .error (.invalidConversion "Empty trace")
  else if t.numRegisters = 0 then .error (.invalidConversion "No registers")
  else if t.columns.length ≠ t.numRegisters then
    .error (.invalidConversion "Column count mismatch")
  else if t.columns.any (fun c => c.length ≠ t.length) then
    .error (.invalidConversion "Column length mismatch")
  else .ok ()

/-- TransitionFunction::validate from types/stark.rs. -/
def transitionValidate (t : TransitionFunctionData F) : Except TypeError Unit :=
  if t.coefficients.isEmpty then .error (.invalidConversion "Empty coefficients")
  else .ok ()

/-- BoundaryConditions::validate from types/stark.rs: each individual
boundary constraint validates to Ok, so the whole set does. -/
def boundaryValidate (_b : BoundaryConditions F) : Except TypeError Unit :=
  .ok ()

/-- Air::validate from types/stark.rs: the constraint loop is a no-op in the
source; the transition function and boundary conditions are validated. -/
def airValidate (a : Air F) : Except TypeError Unit := do
  transitionValidate a.transition
  boundaryValidate a.boundary

/-- MerkleCommitment::validate from types/stark.rs. -/
def merkleValidate (m : MerkleCommitment F) : Except TypeError Unit :=
  if m.root.isEmpty then .error (.invalidConversion "Empty root")
  else if m.leaves.isEmpty then .error (.invalidConversion "Empty leaves")
  else .ok ()

/-- FriLayer::validate from types/stark.rs. -/
def friLayerValidate (l : FriLayer F) : Except TypeError Unit :=
  if l.polynomial.isEmpty then .error (.invalidConversion "Empty polynomial")
  else if l.commitment.isEmpty then .error (.invalidConversion "Empty commitment")
  else .ok ()

/-- FriQuery::validate from types/stark.rs. -/
def friQueryValidate (q : FriQuery F) : Except TypeError Unit :=
  if q.responses.isEmpty then .error (.invalidConversion "Empty responses")
  else .ok ()

/-- Fold a validator over a list, stopping at the first error, as the for
loops with the question-mark operator do in the source. -/
def validateAll (f : α → Except TypeError Unit) : List α → Except TypeError Unit
  | [] => .ok ()
  | x :: rest =>
    match f x with
    | .error e => .error e
    | .ok _ => validateAll f rest

/-- FriProof::validate from types/stark.rs. -/
def friValidate (p : FriProof F) : Except TypeError Unit :=
  if p.layers.isEmpty then .error (.invalidConversion "Empty layers")
  else if p.finalPolynomial.isEmpty then
    .error (.invalidConversion "Empty final polynomial")
  else
    match validateAll friLayerValidate p.layers with
    | .error e => .error e
    | .ok _ => validateAll friQueryValidate p.queries

/-- StarkProof::validate from types/stark.rs: trace, then AIR, then every
commitment, then the FRI proof. -/
def starkProofValidate (p : StarkProof F) : Except TypeError Unit := do
  traceValidate p.trace
  airValidate p.air
  validateAll merkleValidate p.commitments
  friValidate p.friProof

/-- StarkComponent::to_bytes for StarkProof in types/stark.rs: the source is
a placeholder returning an empty byte vector. -/
def starkProofToBytes (_p : StarkProof F) : List Nat := []

/-- StarkComponent::from_bytes for StarkProof in types/stark.rs: the source
is a placeholder that always fails with InvalidConversion("Not implemented"). -/
def starkProofFromBytes (F : Type) (_bytes : List Nat) :
    Except TypeError (StarkProof F) :=
  .error (.invalidConversion "Not implemented")

/-- Push one state onto the trace columns: the source pushes state[i] onto
column i for every i below the register count; entries of the state beyond
the column count are dropped, and columns beyond the state length receive
nothing. -/
def pushState (cols : List (List F)) (st : List F) : List (List F) :=
  cols.mapIdx (fun i col =>
    match st.get? i with
    | some v => col ++ [v]
    | none => col)

/-- The trace generation loop of StarkProver::generate_trace: runs once per
remaining step, computing the next state with the transition function and
pushing it onto the columns. -/
def traceLoopSteps (applyF : List F → List F) :
    Nat → List F → List (List F) → List (List F)
  | 0, _, cols => cols
  | k + 1, st, cols =>
    let nxt := applyF st
    traceLoopSteps applyF k nxt (pushState cols nxt)

/-- StarkProver::generate_trace: columns start as num_registers empty
vectors, receive the initial state as row 0, then one transition per
remaining step (the source loop runs for 1..num_steps).  The transition
function apply and num_registers live in the crate air module, which is
absent from src/, so they are passed in as parameters. -/
def generateTrace (applyF : List F → List F) (numRegisters : Nat)
    (initialState : List F) (numSteps : Nat) : ExecutionTrace F :=
  { columns :=
      traceLoopSteps applyF (numSteps - 1) initialState
        (pushState (List.replicate numRegisters []) initialState),
    length := numSteps,
    numRegisters := numRegisters }

/-- StarkProver::generate_constraint_polynomials: for every constraint and
every adjacent row pair the constraint is evaluated against (current_state,
next_state, challenge).  Constraint::evaluate lives in the absent crate air
module and is passed in as a parameter; the F::random() challenge is
nondeterministic and is passed in as a challenge stream indexed by
constraint and step.  Row access col[step] is modelled with a zero default;
the indices stay in range for the traces the prover builds. -/
def generateConstraintPolynomials (ops : FieldOps F)
    (evalConstraint : AirConstraint F → List F → List F → F → F)
    (challenge : Nat → Nat → F) (air : Air F) (trace : ExecutionTrace F) :
    List (List F) :=
  air.constraints.enum.map (fun ci =>
    (List.range (trace.length - 1)).map (fun step =>
      let current := trace.columns.map (fun col => col.getD step ops.zero)
      let next := trace.columns.map (fun col => col.getD (step + 1) ops.zero)
      evalConstraint ci.2 current next (challenge ci.1 step)))

/-- StarkProver::generate_fri_proof: the source is a placeholder returning a
FriProof with no layers, an empty final polynomial and no queries. -/
def generateFriProof (_constraintPolynomials : List (List F)) : FriProof F :=
  { layers := [], finalPolynomial := [], queries := [] }

/-- StarkProver::generate_commitments: the source is a placeholder returning
no commitments. -/
def generateCommitments (_trace : ExecutionTrace F)
    (_constraintPolynomials : List (List F)) : List (MerkleCommitment F) :=
  []

/-- StarkProver::create_proof_metadata: version 1, the prover security
parameter, the written modulus string, trace length times register count as
the size, and the wall-clock timestamp (passed in as a parameter). -/
def createProofMetadata (securityParameter : Nat) (timestamp : Nat)
    (trace : ExecutionTrace F) : ProofMetadata :=
  { version := 1,
    securityParameter := securityParameter,
    fieldModulus :=
      "0x30644e72e131a029b85045b68181585d97816a916871ca8d3c208c16d87cfd47",
    proofSize := trace.length * trace.numRegisters,
    timestamp := timestamp }

/-- StarkProver::prove: trace, constraint polynomials, placeholder FRI proof,
placeholder commitments, metadata, assembled proof.  Every stage in the
source returns Ok, so prove returns Ok of the assembled proof. -/
def starkProve (ops : FieldOps F)
    (evalConstraint : AirConstraint F → List F → List F → F → F)
    (challenge : Nat → Nat → F) (timestamp : Nat) (securityParameter : Nat)
    (applyF : List F → List F) (numRegisters : Nat) (air : Air F)
    (initialState : List F) (numSteps : Nat) :
    Except ProofError (StarkProof F) :=
  let trace := generateTrace applyF numRegisters initialState numSteps
  let constraintPolynomials :=
    generateConstraintPolynomials ops evalConstraint challenge air trace
  let friProof := generateFriProof constraintPolynomials
  let commitments := generateCommitments trace constraintPolynomials
  let metadata := createProofMetadata securityParameter timestamp trace
  .ok
    { trace := trace,
      air := air,
      commitments := commitments,
      friProof := friProof,
      metadata := metadata }

/-- StarkVerifier::verify_boundary_conditions: a placeholder in the source,
always Ok(true). -/
def verifyBoundaryConditions (_proof : StarkProof F) (_publicInputs : List F) :
    Except ProofError Bool :=
  .ok true

/-- StarkVerifier::verify_constraints: a placeholder in the source, always
Ok(true). -/
def verifyConstraints (_proof : StarkProof F) : Except ProofError Bool :=
  .ok true

/-- StarkVerifier::verify_fri_proof: a placeholder in the source, always
Ok(true). -/
def verifyFriProof (_proof : StarkProof F) : Except ProofError Bool :=
  .ok true

/-- StarkVerifier::verify_commitments: a placeholder in the source, always
Ok(true). -/
def verifyCommitments (_proof : StarkProof F) : Except ProofError Bool :=
  .ok true

/-- StarkVerifier::verify: structural validation first (an error there is
mapped to ProofError::InvalidProof), then the four spot checks, each able to
turn the answer into Ok(false). -/
def starkVerify (proof : StarkProof F) (publicInputs : List F) :
    Except ProofError Bool :=
  match starkProofValidate proof with
  | .error e => .error (.invalidProof (typeErrorToString e))
  | .ok _ =>
    match verifyBoundaryConditions proof publicInputs with
    | .error e => .error e
    | .ok b1 =>
      if !b1 then .ok false
      else
        match verifyConstraints proof with
        | .error e => .error e
        | .ok b2 =>
          if !b2 then .ok false
          else
            match verifyFriProof proof with
            | .error e => .error e
            | .ok b3 =>
              if !b3 then .ok false
              else
                match verifyCommitments proof with
                | .error e => .error e
                | .ok b4 => if !b4 then .ok false else .ok true

/-- Modelled from the spec: TransitionFunction::counter of the absent crate
air module.  The end-to-end scenario of spec section 8 describes the counter
AIR as next = current + 1; apply adds one to each register value using the
PrimeField64 addition. -/
def counterApply (st : List PrimeField64) : List PrimeField64 :=
  st.map (fun c => pfAdd c pfOne)

/-- Modelled from the spec: the counter AIR has a single register, so
TransitionFunction::num_registers() is 1. -/
def counterNumRegisters : Nat := 1

/-- Modelled from the spec: the transition-function data of the counter (a
coefficient matrix plus degree, spec section 3); the matrix is non-empty,
one row for the single register. -/
def counterTransitionData : TransitionFunctionData PrimeField64 :=
  { coefficients := [[pfOne]], degree := 1 }

/-- The counter AIR of the end-to-end scenario, mirroring the repository
test test_proof_verification: one transition constraint with polynomial
[1, 1] and degree 1, the counter transition, no boundary conditions,
security parameter 128. -/
def counterAir : Air PrimeField64 :=
  { constraints := [AirConstraint.mk [pfOne, pfOne] 1 ConstraintType.transition],
    transition := counterTransitionData,
    boundary := { constraints := [] },
    securityParameter := 128 }

/-- The reference state sequence: the initial state, then repeated
application of the transition function.  Used to state trace correctness. -/
def stateAt (applyF : List F → List F) (init : List F) : Nat → List F
  | 0 => init
  | s + 1 => applyF (stateAt applyF init s)

/-- Row s of an execution trace: the entry at index s of every column, with
a default value for out-of-range reads. -/
def traceRow (z : F) (t : ExecutionTrace F) (s : Nat) : List F :=
  t.columns.map (fun col => col.getD s z)

/-- C3: the claim says inverse is None exactly on the additive identity and a
two-sided inverse otherwise.  The code refutes both parts: 3 is non-zero yet
has no inverse (3 divides the truncated modulus), and the inverse the code
returns for 5 fails 5 * inverse(5) = 1, because the Bezout coefficient is
carried mod 2^64, which is not 0 mod the modulus.  The repository test
test_prime_field_inverse (a = 5) fails on this. -/
theorem pfInverse_bug_at_three_and_five :
    pfInverse (pfNew 3) = none ∧ pfNew 3 ≠ pfZero ∧
    pfInverse (pfNew 5) = some (pfNew 3715846711358720322) ∧
    pfMul (pfNew 5) (pfNew 3715846711358720322) ≠ pfOne := by
  refine ⟨by decide, by decide, by decide, by decide⟩

/-- C4: the claim says (a + b) - b = a for all field elements.  The code
refutes it at a = MODULUS - 1, b = 2: the sum reduces to 1, and subtracting
2 from 1 takes the borrow path of sub_constant_time, which subtracts MODULUS
from the wrapped difference instead of adding it, leaving a value shifted by
2^64 mod MODULUS.  The second conjunct of the claim, a + (-a) = 0, does hold
at this input and is recorded for completeness. -/
theorem pfSub_roundtrip_bug :
    pfAdd (pfNew 0x3c208c16d87cfd46) (pfNew 2) = pfNew 1 ∧
    pfSub (pfNew 1) (pfNew 2) = pfNew 1116276588590926563 ∧
    pfSub (pfAdd (pfNew 0x3c208c16d87cfd46) (pfNew 2)) (pfNew 2) ≠
      pfNew 0x3c208c16d87cfd46 ∧
    pfAdd (pfNew 0x3c208c16d87cfd46) (pfNeg (pfNew 0x3c208c16d87cfd46)) =
      pfZero := by
  refine ⟨by decide, by decide, by decide, by decide⟩

/-- C5: the claim says interpolation succeeds on any non-empty point list
with pairwise distinct x-coordinates and reproduces every y.  The code
refutes it on the repository's own test points (1,1), (2,4), (3,9) (test
test_polynomial_interpolation): a Lagrange denominator has no inverse in the
ring mod the truncated composite modulus, so interpolate returns None. -/
theorem polyInterpolate_fails_on_test_points :
    polyInterpolate pfOps
      [(pfNew 1, pfNew 1), (pfNew 2, pfNew 4), (pfNew 3, pfNew 9)] = none ∧
    pfNew 1 ≠ pfNew 2 ∧ pfNew 1 ≠ pfNew 3 ∧ pfNew 2 ≠ pfNew 3 := by
  refine ⟨by decide, by decide, by decide, by decide⟩

/-- C8: the claim says multiplication at an unsupported degree surfaces a
typed error.  The code refutes it: mul_constant_time on two degree-4
elements reaches irreducible_polynomial inside the loop body, which panics;
no error-typed return channel exists in the signature. -/
theorem bfMul_panics_on_unsupported_degree :
    bfMulConstantTime (bfNew 1 4) (bfNew 1 4) =
      .panicked ("Unsupported field degree: " ++ toString (4 : Nat)) := by
  decide

/-- C9: the claim says StarkProof serialization round-trips.  The code
refutes it for every proof: to_bytes is a placeholder returning an empty
vector and from_bytes a placeholder that always fails with
InvalidConversion("Not implemented"), so no proof deserializes. -/
theorem starkProof_serialization_never_roundtrips (p : StarkProof PrimeField64) :
    starkProofToBytes p = [] ∧
    starkProofFromBytes PrimeField64 (starkProofToBytes p) =
      .error (.invalidConversion "Not implemented") := by
  exact ⟨rfl, rfl⟩

/-- C10: from_bytes_constant_time always succeeds, its result is new applied
to the little-endian value of the first 8 bytes (so any two arrays agreeing
on bytes 0..8 deserialize identically), and a value at or above MODULUS is
reduced mod MODULUS rather than rejected. -/
theorem pfFromBytes_total_prefix_reduction (b b2 : Fin 32 → Fin 256)
    (h : ∀ i : Fin 32, (i : Nat) < 8 → b i = b2 i) :
    pfFromBytes b = some (pfNew (encodeLE8 b)) ∧
    pfFromBytes b = pfFromBytes b2 ∧
    (pfNew (encodeLE8 b)).value = encodeLE8 b % MODULUS := by
  refine ⟨rfl, ?_, rfl⟩
  have he : encodeLE8 b = encodeLE8 b2 := by
    unfold encodeLE8
    rw [h 0 (by decide), h 1 (by decide), h 2 (by decide), h 3 (by decide),
      h 4 (by decide), h 5 (by decide), h 6 (by decide), h 7 (by decide)]
  unfold pfFromBytes
  rw [he]

/-- Witness for C10 at the all-zero byte array. -/
theorem pfFromBytes_total_prefix_reduction_witness :
    pfFromBytes (fun _ => (0 : Fin 256)) =
      some (pfNew (encodeLE8 (fun _ => (0 : Fin 256)))) ∧
    pfFromBytes (fun _ => (0 : Fin 256)) = pfFromBytes (fun _ => (0 : Fin 256)) ∧
    (pfNew (encodeLE8 (fun _ => (0 : Fin 256)))).value =
      encodeLE8 (fun _ => (0 : Fin 256)) % MODULUS := by
  exact pfFromBytes_total_prefix_reduction _ _ (fun i _ => rfl)

/-- C6: for 1 <= i <= degree(p), the derivative holds coefficient(i) * new(i)
at index i - 1 when i is not divisible by the field characteristic, and the
additive identity when it is (the term is skipped).  The positivity
hypothesis on the characteristic mirrors the modulo operation of the source,
which requires a non-zero divisor. -/
theorem polyDerivative_coefficient (ops : FieldOps F) (p : List F) (i : Nat)
    (h1 : 1 ≤ i) (h2 : i ≤ polyDegree ops p) (_hc : 0 < ops.characteristic) :
    polyCoeff ops (polyDerivative ops p) (i - 1) =
      if i % ops.characteristic = 0 then ops.zero
      else ops.mul (polyCoeff ops p i) (ops.ofU64 i) := by
  have hd : ¬ polyDegree ops p = 0 := by omega
  have hlt : i - 1 < polyDegree ops p := by omega
  rw [polyDerivative, if_neg hd, polyCoeff, List.getD_eq_getElem?_getD,
    List.getElem?_map, List.getElem?_range hlt]
  have hi : i - 1 + 1 = i := by omega
  rw [Option.map_some']
  rw [Option.getD_some, hi]
  by_cases h : i % ops.characteristic = 0
  · simp [h]
  · simp [h]

/-- Witness for C6: the derivative of x^2 over PrimeField64 has 2 at index 1. -/
theorem polyDerivative_coefficient_witness :
    polyCoeff pfOps (polyDerivative pfOps [pfZero, pfZero, pfOne]) (2 - 1) =
      if 2 % pfOps.characteristic = 0 then pfOps.zero
      else pfOps.mul (polyCoeff pfOps [pfZero, pfZero, pfOne] 2)
        (pfOps.ofU64 2) := by
  exact polyDerivative_coefficient pfOps [pfZero, pfZero, pfOne] 2
    (by decide) (by decide) (by decide)

/-- The division loop reaches the state quotient = [0], remainder = [0] when
dividing by the constant polynomial [1], and that state is a fixed point of
the loop: the degree guard 0 >= 0 never fails, so no fuel suffices. -/
theorem divideLoop_stuck_at_zero (fuel : Nat) :
    divideLoop pfOps [pfNew 1] 0 (pfNew 1) fuel [pfZero] [pfZero] = none := by
  induction fuel with
  | zero => rfl
  | succ n ih =>
    show divideLoop pfOps [pfNew 1] 0 (pfNew 1) n [pfZero] [pfZero] = none
    exact ih

/-- C2: the claim says divide terminates with quotient and remainder
satisfying quot * q + rem = p for every non-zero q.  The code refutes it for
the constant divisor q = [1] (and p = [1]): the while guard compares usize
degrees, remainder.degree() >= 0 always holds, and once the remainder is the
zero polynomial the state repeats forever; the loop never returns at any
fuel. -/
theorem polyDivide_never_terminates_on_constant_divisor (fuel : Nat) :
    polyDivide pfOps fuel [pfNew 1] [pfNew 1] = none := by
  match fuel with
  | 0 => rfl
  | 1 => rfl
  | n + 2 =>
    show divideLoop pfOps [pfNew 1] 0 (pfNew 1) n [pfZero] [pfZero] = none
    exact divideLoop_stuck_at_zero n

/-- Pushing a state appends entry i of the state to column i and leaves
columns without a matching state entry unchanged. -/
theorem pushState_getElem? (cols : List (List F)) (st : List F) (i : Nat) :
    (pushState cols st)[i]? = cols[i]?.map (fun col =>
      match st[i]? with
      | some v => col ++ [v]
      | none => col) := by
  rw [pushState, List.mapIdx_eq_enum_map, List.getElem?_map, List.getElem?_enum]
  cases cols[i]? <;> simp [Function.uncurry]

/-- Pushing a state does not change the number of columns. -/
theorem pushState_length (cols : List (List F)) (st : List F) :
    (pushState cols st).length = cols.length := by
  simp [pushState]

/-- The trace loop does not change the number of columns. -/
theorem traceLoopSteps_length (f : List F → List F) :
    ∀ (k : Nat) (st : List F) (cols : List (List F)),
      (traceLoopSteps f k st cols).length = cols.length
  | 0, _, _ => rfl
  | k + 1, st, cols => by
    rw [traceLoopSteps]
    rw [traceLoopSteps_length f k]
    exact pushState_length cols (f st)

/-- Shifting the start of the reference state sequence by one application. -/
theorem stateAt_shift (f : List F → List F) (st : List F) :
    ∀ j, stateAt f (f st) j = stateAt f st (j + 1)
  | 0 => rfl
  | j + 1 => by
    rw [stateAt, stateAt_shift f st j]
    rfl

/-- Every reference state has the register count as its length when the
initial state does and the transition preserves it. -/
theorem stateAt_length (f : List F → List F) (init : List F) (R : Nat)
    (hinit : init.length = R)
    (happ : ∀ st : List F, st.length = R → (f st).length = R) :
    ∀ s, (stateAt f init s).length = R
  | 0 => hinit
  | s + 1 => happ _ (stateAt_length f init R hinit happ s)

/-- Running the trace loop k times appends the next k reference states,
entry-wise, to every column with index below the register count. -/
theorem traceLoopSteps_getElem? (f : List F → List F) (R : Nat) (z : F)
    (happ : ∀ st : List F, st.length = R → (f st).length = R) (i : Nat)
    (hiR : i < R) :
    ∀ (k : Nat) (st : List F) (cols : List (List F)), st.length = R →
      (traceLoopSteps f k st cols)[i]? =
        cols[i]?.map (fun col =>
          col ++ (List.range k).map (fun j => (stateAt f st (j + 1)).getD i z)) := by
  intro k
  induction k with
  | zero =>
    intro st cols _
    simp [traceLoopSteps]
  | succ n ih =>
    intro st cols hst
    rw [traceLoopSteps]
    rw [ih (f st) (pushState cols (f st)) (happ st hst)]
    rw [pushState_getElem?, Option.map_map]
    have hfl : st.length = R → (f st)[i]? = some ((f st).getD i z) := by
      intro hst2
      have hlen : i < (f st).length := by
        rw [happ st hst2]
        exact hiR
      rw [List.getElem?_eq_getElem hlen, List.getD_eq_getElem _ _ hlen]
    congr 1
    funext col
    simp only [Function.comp, hfl hst]
    rw [List.range_succ_eq_map, List.map_cons, List.map_map]
    rw [List.append_assoc, List.singleton_append]
    have hhead : (stateAt f st 1).getD i z = (f st).getD i z := rfl
    have htail :
        (List.range n).map (fun j => (stateAt f (f st) (j + 1)).getD i z) =
          (List.range n).map
            ((fun j => (stateAt f st (j + 1)).getD i z) ∘ Nat.succ) := by
      apply List.map_congr_left
      intro j _
      simp only [Function.comp]
      rw [stateAt_shift]
    rw [htail, hhead]

/-- The trace columns have one entry per register. -/
theorem generateTrace_columns_length (f : List F → List F) (R : Nat)
    (init : List F) (n : Nat) :
    (generateTrace f R init n).columns.length = R := by
  show (traceLoopSteps f (n - 1) init
    (pushState (List.replicate R []) init)).length = R
  rw [traceLoopSteps_length, pushState_length, List.length_replicate]

/-- Column i of the generated trace lists entry i of the reference states
for the first num_steps steps. -/
theorem generateTrace_columns_getElem? (z : F) (f : List F → List F) (R : Nat)
    (init : List F) (n : Nat) (hinit : init.length = R)
    (happ : ∀ st : List F, st.length = R → (f st).length = R) (hn : 1 ≤ n)
    (i : Nat) (hiR : i < R) :
    (generateTrace f R init n).columns[i]? =
      some ((List.range n).map (fun s => (stateAt f init s).getD i z)) := by
  show (traceLoopSteps f (n - 1) init
    (pushState (List.replicate R []) init))[i]? = _
  rw [traceLoopSteps_getElem? f R z happ i hiR (n - 1) init _ hinit]
  rw [pushState_getElem?]
  have hrep : (List.replicate R ([] : List F))[i]? = some [] := by
    rw [List.getElem?_replicate, if_pos hiR]
  have hinitl : init[i]? = some (init.getD i z) := by
    have hlen : i < init.length := by
      rw [hinit]
      exact hiR
    rw [List.getElem?_eq_getElem hlen, List.getD_eq_getElem _ _ hlen]
  rw [hrep, Option.map_some', hinitl, Option.map_some']
  congr 1
  have hmatch : (match some (init.getD i z) with
      | some v => ([] : List F) ++ [v]
      | none => ([] : List F)) = [init.getD i z] := rfl
  rw [hmatch]
  obtain ⟨m, rfl⟩ : ∃ m, n = m + 1 := ⟨n - 1, by omega⟩
  simp only [Nat.add_sub_cancel]
  rw [List.singleton_append, List.range_succ_eq_map, List.map_cons,
    List.map_map]
  congr 1

/-- Row s of the generated trace is the reference state at step s. -/
theorem generateTrace_row (z : F) (f : List F → List F) (R : Nat)
    (init : List F) (n : Nat) (hinit : init.length = R)
    (happ : ∀ st : List F, st.length = R → (f st).length = R) (hn : 1 ≤ n)
    (s : Nat) (hs : s < n) :
    traceRow z (generateTrace f R init n) s = stateAt f init s := by
  apply List.ext_getElem?
  intro i
  rw [traceRow, List.getElem?_map]
  by_cases hiR : i < R
  · rw [generateTrace_columns_getElem? z f R init n hinit happ hn i hiR]
    rw [Option.map_some']
    have hsl : i < (stateAt f init s).length := by
      rw [stateAt_length f init R hinit happ s]
      exact hiR
    rw [List.getD_eq_getElem?_getD, List.getElem?_map, List.getElem?_range hs]
    rw [List.getElem?_eq_getElem hsl]
    simp only [Option.map_some', Option.getD_some]
    rw [List.getD_eq_getElem _ _ hsl]
  · have h1 : (generateTrace f R init n).columns[i]? = none := by
      apply List.getElem?_eq_none
      rw [generateTrace_columns_length]
      omega
    have h2 : (stateAt f init s)[i]? = none := by
      apply List.getElem?_eq_none
      rw [stateAt_length f init R hinit happ s]
      omega
    rw [h1, h2]
    rfl

/-- C7: for an initial state of the register count and at least one step,
generate_trace stores the register count in the trace, gives every column
exactly num_steps entries, places the initial state in row 0, and makes each
later row the transition function applied to the previous row.  The
transition function apply and register count come from the crate air module
absent from src/ and are abstract parameters here, assumed length-preserving
as the spec requires (one value per register). -/
theorem generateTrace_correct (z : F) (f : List F → List F) (R : Nat)
    (init : List F) (n : Nat) (hinit : init.length = R)
    (happ : ∀ st : List F, st.length = R → (f st).length = R) (hn : 1 ≤ n) :
    (generateTrace f R init n).numRegisters = R ∧
    (generateTrace f R init n).length = n ∧
    (generateTrace f R init n).columns.length = R ∧
    (∀ col ∈ (generateTrace f R init n).columns, col.length = n) ∧
    traceRow z (generateTrace f R init n) 0 = init ∧
    (∀ s, s + 1 < n →
      traceRow z (generateTrace f R init n) (s + 1) =
        f (traceRow z (generateTrace f R init n) s)) := by
  refine ⟨rfl, rfl, generateTrace_columns_length f R init n, ?_, ?_, ?_⟩
  · intro col hcol
    obtain ⟨i, hi, hcoleq⟩ := List.mem_iff_getElem.mp hcol
    have hiR : i < R := by
      rw [generateTrace_columns_length f R init n] at hi
      exact hi
    have := generateTrace_columns_getElem? z f R init n hinit happ hn i hiR
    rw [List.getElem?_eq_getElem hi, hcoleq] at this
    have hcv : col = (List.range n).map
        (fun s => (stateAt f init s).getD i z) := by
      exact Option.some.inj this
    rw [hcv, List.length_map, List.length_range]
  · rw [generateTrace_row z f R init n hinit happ hn 0 (by omega)]
    rfl
  · intro s hs
    rw [generateTrace_row z f R init n hinit happ hn (s + 1) hs]
    rw [generateTrace_row z f R init n hinit happ hn s (by omega)]
    rfl

/-- Witness for C7: the one-register counter transition, initial state [0],
three steps. -/
theorem generateTrace_correct_witness :
    (generateTrace counterApply 1 [pfZero] 3).numRegisters = 1 ∧
    (generateTrace counterApply 1 [pfZero] 3).length = 3 ∧
    (generateTrace counterApply 1 [pfZero] 3).columns.length = 1 ∧
    (∀ col ∈ (generateTrace counterApply 1 [pfZero] 3).columns,
      col.length = 3) ∧
    traceRow pfZero (generateTrace counterApply 1 [pfZero] 3) 0 = [pfZero] ∧
    (∀ s, s + 1 < 3 →
      traceRow pfZero (generateTrace counterApply 1 [pfZero] 3) (s + 1) =
        counterApply
          (traceRow pfZero (generateTrace counterApply 1 [pfZero] 3) s)) := by
  exact generateTrace_correct pfZero counterApply 1 [pfZero] 3 rfl
    (fun st h => by simp [counterApply, h]) (by omega)

/-- C1: the claim says prove then verify on the counter AIR accepts, and
any single-value trace mutation is rejected.  The code produces the expected
trace column [0, 1, ..., 9], but verify never returns Ok(true) on the
honest proof: prove emits the placeholder FRI proof with no layers, and the
structural validation that verify runs first rejects it with Empty layers,
so verify returns an error, not true (the repository's own test
test_proof_verification asserts Ok(true) and fails).  The statement holds
for every modelled constraint evaluator, challenge stream and timestamp,
which the proof object does not depend on. -/
theorem counter_prove_verify_rejects_honest_proof
    (evalConstraint : AirConstraint PrimeField64 → List PrimeField64 →
      List PrimeField64 → PrimeField64 → PrimeField64)
    (challenge : Nat → Nat → PrimeField64) (timestamp : Nat) :
    ∃ p : StarkProof PrimeField64,
      starkProve pfOps evalConstraint challenge timestamp 128 counterApply
        counterNumRegisters counterAir [pfZero] 10 = .ok p ∧
      p.trace.columns =
        [[pfNew 0, pfNew 1, pfNew 2, pfNew 3, pfNew 4, pfNew 5, pfNew 6,
          pfNew 7, pfNew 8, pfNew 9]] ∧
      p.friProof = { layers := [], finalPolynomial := [], queries := [] } ∧
      starkVerify p [pfZero] =
        .error (.invalidProof "Empty layers") := by
  refine ⟨_, rfl, ?_, rfl, rfl⟩
  show (generateTrace counterApply counterNumRegisters [pfZero] 10).columns = _
  decide

end XfgStark
